import Mathlib

/-!
Verification development for the secretsync reconciliation engine.

The definitions below are shallow embeddings of the JavaScript sources:
  - src/platforms/base.js   (BasePlatform.getSystemVars, BasePlatform.isProtectedVar)
  - src/platforms/vercel.js (VercelPlatform.getSystemVars, listRemoteVars,
                             setRemoteVar, removeRemoteVar)
  - src/core/config.js      (Config.shouldExclude, Config.filterVars)
  - src/core/syncer.js      (Syncer.calculateChanges, Syncer.applyChanges,
                             Syncer.push)
  - src/utils/prompts.js    (Prompts.confirm, Prompts.confirmChanges)
-/

namespace SecretSync

/-- Idealized anchored glob matching: the matching relation of the
specification (section 4.1), in which each `*` matches a run of zero or
more characters and every other character matches only itself.  The
source instead builds and tests the regular expression given by the
string `^` ++ pattern.replace(/\*/g, `.*`) ++ `$`; that construction is
embedded faithfully, error path included, by `matchesPatternJS` below,
and the two readings agree exactly on glob-safe patterns and
line-terminator-free names (lemma `matchesPatternJS_safe`).
`globMatch ps ns` decides whether the name (character list `ns`)
glob-matches the whole pattern (character list `ps`). -/
def globMatch : List Char → List Char → Bool
  | [], ns => ns.isEmpty
  | p :: ps, ns =>
      if p = '*' then ns.tails.any (fun suffix => globMatch ps suffix)
      else
        match ns with
        | [] => false
        | c :: ns => if p = c then globMatch ps ns else false

/-- Idealized total matcher with the branch structure shared by
`BasePlatform.isProtectedVar` (base.js lines 91-104) and
`Config.shouldExclude`: strict equality for star-free patterns, glob
matching otherwise.  The faithful fallible embedding of the regex path
the source actually takes is `matchesPatternJS` below; the two agree
exactly on glob-safe patterns and line-terminator-free names
(lemma `matchesPatternJS_safe`).  The protection and filter embeddings
below use this total matcher; every concrete pattern in this repository
(the system-variable lists, see `vercelSystemVars_safe`, and the default
and example include/exclude lists) is glob-safe, and the names the
pipeline produces (whitespace-free CLI columns, env-file keys) contain no
line terminator, so on those inputs the idealization is exact. -/
def matchesPattern (name pattern : String) : Bool :=
  if pattern.toList.contains '*' then globMatch pattern.toList name.toList
  else name == pattern

/-- Declarative glob-matching semantics, written from the specification
wording for comparison with the source-derived `globMatch`: the empty
pattern matches the empty name, a non-wildcard character matches exactly
itself, and each `*` matches an arbitrary run `w` of zero or more
characters; matching is anchored at both ends by construction. -/
inductive GlobSpec : List Char → List Char → Prop where
  | nil : GlobSpec [] []
  | lit {c : Char} {ps ns : List Char} :
      c ≠ '*' → GlobSpec ps ns → GlobSpec (c :: ps) (c :: ns)
  | star {ps ns : List Char} (w : List Char) :
      GlobSpec ps ns → GlobSpec ('*' :: ps) (w ++ ns)

/-- Single-character test of the regular-expression dot: in JavaScript,
`.` without the dotAll flag matches every character except the line
terminators U+000A, U+000D, U+2028 and U+2029. -/
def dotMatches (c : Char) : Bool :=
  !(c == '\n' || c == '\r' || c == '\u2028' || c == '\u2029')

/-- Characters whose appearance in a glob pattern makes the constructed
regular expression engage syntax beyond the fragment modelled here:
quantifiers on arbitrary atoms, alternation, character classes, counted
repetition, embedded anchors and escapes (`\x7b` and `\x7d` are the curly
braces). -/
def regexMetaChar (c : Char) : Bool :=
  c == '+' || c == '?' || c == '|' || c == '[' || c == ']' ||
  c == '\x7b' || c == '\x7d' || c == '^' || c == '$' || c == '\\'

/-- Characters that the glob reading and the regular-expression reading
treat as the same literal: everything except parentheses, the dot, the
star and the other metacharacters. -/
def globSafeChar (c : Char) : Bool :=
  !(c == '(' || c == ')' || c == '.' || c == '*' || regexMetaChar c)

/-- Patterns over the glob alphabet: stars plus literal characters that
no regular-expression reading reinterprets. -/
def globSafePattern (pattern : String) : Bool :=
  pattern.toList.all (fun c => c == '*' || globSafeChar c)

/-- Names free of line terminators: exactly the names on which a
dot-star run can consume every character. -/
def lineTerminatorFree (name : String) : Bool :=
  name.toList.all dotMatches

/-- Atoms of the compiled form of the constructed regular expression: a
literal character, the dot wildcard, or a greedy dot-star run.  In the
constructed expression a star can only follow a dot (each pattern star is
replaced by the two characters dot and star), and parentheses never carry
a quantifier or alternation, so groups are pure bracketing and
compilation can flatten them without changing acceptance. -/
inductive RegexPiece where
  | lit (c : Char)
  | dot
  | dotStar
deriving DecidableEq

/-- Compilation of the regular expression the source constructs from a
glob pattern, fused with the star replacement: the source builds
`new RegExp` from `^` ++ pattern.replace(/\*/g, `.*`) ++ `$`, so in the
constructed expression each pattern star contributes exactly the greedy
run `.*`, each pattern dot the single-character wildcard, each
parenthesis bare grouping (never quantified and never alternated in this
fragment, hence flattened without changing acceptance), and every other
unreserved character itself as a literal; the compilation walks the
pattern and emits that unit per character.  The depth argument tracks
open groups: an unclosed or unmatched parenthesis raises a SyntaxError
exactly as `new RegExp` does in the source.  A character that engages
regular-expression syntax outside this fragment is mapped to an error
marking the model boundary: no theorem below evaluates the matcher on
such a pattern, and every counterexample input lies inside the fragment,
where this compilation agrees with the source. -/
def compilePattern : List Char → Nat → Except String (List RegexPiece)
  | [], 0 => Except.ok []
  | [], _ + 1 => Except.error "Invalid regular expression: missing )"
  | c :: cs, depth =>
      if c = '*' then
        match compilePattern cs depth with
        | Except.ok r => Except.ok (RegexPiece.dotStar :: r)
        | Except.error e => Except.error e
      else if c = '.' then
        match compilePattern cs depth with
        | Except.ok r => Except.ok (RegexPiece.dot :: r)
        | Except.error e => Except.error e
      else if c = '(' then compilePattern cs (depth + 1)
      else if c = ')' then
        match depth with
        | 0 => Except.error "Invalid regular expression: unmatched )"
        | d + 1 => compilePattern cs d
      else if regexMetaChar c then
        Except.error "unsupported regular-expression construct in the modelled fragment"
      else
        match compilePattern cs depth with
        | Except.ok r => Except.ok (RegexPiece.lit c :: r)
        | Except.error e => Except.error e

/-- Anchored acceptance of the compiled expression: the whole name must
be consumed, as forced by the `^` and `$` the source wraps around the
body; a dot-star consumes any run of characters the dot accepts. -/
def regexAccepts : List RegexPiece → List Char → Bool
  | [], ns => ns.isEmpty
  | RegexPiece.lit c :: rs, ns =>
      match ns with
      | [] => false
      | n :: ns => if n = c then regexAccepts rs ns else false
  | RegexPiece.dot :: rs, ns =>
      match ns with
      | [] => false
      | n :: ns => if dotMatches n then regexAccepts rs ns else false
  | RegexPiece.dotStar :: rs, ns =>
      (List.range (ns.length + 1)).any
        (fun k => (ns.take k).all dotMatches && regexAccepts rs (ns.drop k))

/-- Faithful embedding of the source matcher on the modelled fragment:
when the pattern contains a star the source builds `new RegExp` from
`^` ++ pattern.replace(/\*/g, `.*`) ++ `$` and tests the name, and the
construction may raise, which neither `isProtectedVar` nor
`shouldExclude` catches; when the pattern is star-free the source
compares for strict equality and nothing can raise. -/
def matchesPatternJS (name pattern : String) : Except String Bool :=
  if pattern.toList.contains '*' then
    match compilePattern pattern.toList 0 with
    | Except.ok pieces => Except.ok (regexAccepts pieces name.toList)
    | Except.error e => Except.error e
  else Except.ok (name == pattern)

/-- Base system variables protected from deletion
(`BasePlatform.getSystemVars`, base.js lines 74-84). -/
def baseSystemVars : List String :=
  ["CI", "NODE_ENV", "PWD", "HOME", "PATH", "USER", "SHELL"]

/-- Vercel system variables protected from deletion
(`VercelPlatform.getSystemVars`): the base list unioned with the Vercel
specific list.  The source stores them in a `Set`, which deduplicates; the
only consumer is an existence test over the elements, for which the
duplicate `CI` entry is immaterial, so the list form is faithful. -/
def vercelSystemVars : List String :=
  baseSystemVars ++
  ["VERCEL*", "CI", "VERCEL_ENV", "VERCEL_TARGET_ENV", "VERCEL_URL",
   "VERCEL_BRANCH_URL", "VERCEL_PROJECT_PRODUCTION_URL", "VERCEL_REGION",
   "VERCEL_DEPLOYMENT_ID", "VERCEL_PROJECT_ID",
   "VERCEL_SKEW_PROTECTION_ENABLED", "VERCEL_AUTOMATION_BYPASS_SECRET",
   "VERCEL_OIDC_TOKEN", "VERCEL_GIT_PROVIDER", "VERCEL_GIT_REPO_SLUG",
   "VERCEL_GIT_REPO_OWNER", "VERCEL_GIT_REPO_ID", "VERCEL_GIT_COMMIT_REF",
   "VERCEL_GIT_COMMIT_SHA", "VERCEL_GIT_COMMIT_MESSAGE",
   "VERCEL_GIT_COMMIT_AUTHOR_LOGIN", "VERCEL_GIT_COMMIT_AUTHOR_NAME",
   "VERCEL_GIT_PREVIOUS_SHA", "VERCEL_GIT_PULL_REQUEST_ID",
   "NEXT_PUBLIC_VERCEL_URL", "NEXT_PUBLIC_VERCEL_ENV",
   "NEXT_PUBLIC_VERCEL_PROJECT_PRODUCTION_URL",
   "NEXT_PUBLIC_VERCEL_BRANCH_URL", "NEXT_PUBLIC_VERCEL_GIT_PROVIDER",
   "NEXT_PUBLIC_VERCEL_GIT_REPO_SLUG", "NEXT_PUBLIC_VERCEL_GIT_REPO_OWNER",
   "NEXT_PUBLIC_VERCEL_GIT_REPO_ID", "NEXT_PUBLIC_VERCEL_GIT_COMMIT_REF",
   "NEXT_PUBLIC_VERCEL_GIT_COMMIT_SHA",
   "NEXT_PUBLIC_VERCEL_GIT_COMMIT_MESSAGE",
   "NEXT_PUBLIC_VERCEL_GIT_COMMIT_AUTHOR_LOGIN",
   "NEXT_PUBLIC_VERCEL_GIT_COMMIT_AUTHOR_NAME",
   "NEXT_PUBLIC_VERCEL_GIT_PULL_REQUEST_ID"]

/-- Shallow embedding of `BasePlatform.isProtectedVar` (base.js lines
91-104): the key is protected iff it matches some pattern of the given
system-variable list, exact or wildcard, exactly as in `matchesPattern`. -/
def isProtectedVar (systemVars : List String) (key : String) : Bool :=
  systemVars.any (fun pattern => matchesPattern key pattern)

/-- Protection predicate of the Vercel platform. -/
def vercelIsProtected (key : String) : Bool :=
  isProtectedVar vercelSystemVars key

/-- Filter-relevant part of the configuration object (config.js): the
include patterns and the exclude patterns, in order. -/
structure FilterConfig where
  include_ : List String
  exclude : List String
deriving DecidableEq

/-- Shallow embedding of `Config.shouldExclude` (config.js lines 429-451):
when the include list is non-empty and no include pattern matches the key,
the key is excluded immediately; otherwise the key is excluded iff some
exclude pattern matches it. -/
def shouldExclude (cfg : FilterConfig) (key : String) : Bool :=
  if cfg.include_.length > 0 then
    if !(cfg.include_.any (fun pattern => matchesPattern key pattern)) then true
    else cfg.exclude.any (fun pattern => matchesPattern key pattern)
  else cfg.exclude.any (fun pattern => matchesPattern key pattern)

/-- The `some` iteration over a pattern list with the fallible matcher:
it stops at the first match, and an error raised by the matcher
propagates out, as an exception thrown inside the callback of
Array.prototype.some does. -/
def anyMatchJS (key : String) : List String → Except String Bool
  | [] => Except.ok false
  | p :: ps =>
      match matchesPatternJS key p with
      | Except.error e => Except.error e
      | Except.ok true => Except.ok true
      | Except.ok false => anyMatchJS key ps

/-- Faithful fallible embedding of `Config.shouldExclude` (config.js
lines 429-451) built on the fallible matcher: the same
include-before-exclude structure as `shouldExclude`, with a raise inside
either pattern test propagating to the caller uncaught. -/
def shouldExcludeJS (cfg : FilterConfig) (key : String) :
    Except String Bool :=
  if cfg.include_.length > 0 then
    match anyMatchJS key cfg.include_ with
    | Except.error e => Except.error e
    | Except.ok shouldInclude =>
        if !shouldInclude then Except.ok true
        else anyMatchJS key cfg.exclude
  else anyMatchJS key cfg.exclude

/-- Shallow embedding of `Config.filterVars` (config.js lines 458-475):
one pass over the snapshot entries, in order, sending each entry either to
the kept mapping or to the excluded-names report.  The JavaScript object is
modelled as an association list in enumeration order. -/
def filterVars (cfg : FilterConfig) :
    List (String × String) → List (String × String) × List String
  | [] => ([], [])
  | kv :: rest =>
      let r := filterVars cfg rest
      if shouldExclude cfg kv.1 then (r.1, kv.1 :: r.2)
      else (kv :: r.1, r.2)

/-- Change set computed by the reconciler (`Syncer.calculateChanges`
result object).  The source field named `protected` is a reserved word in
Lean and is rendered `protected_`. -/
structure ChangeSet where
  toAdd : List String
  toUpdate : List String
  toRemove : List String
  protected_ : List String
deriving DecidableEq

/-- Shallow embedding of `Syncer.calculateChanges` (syncer.js lines
215-232).  The local mapping is an association list in enumeration order
(so `Object.keys` is the list of first components) and the remote `Set` is
a list of names in insertion order.  The platform protection test is the
`isProt` parameter, standing for `this.platform.isProtectedVar`.  The
remote side carries names only, never values. -/
def calculateChanges (isProt : String → Bool)
    (localVars : List (String × String)) (remoteVars : List String) :
    ChangeSet :=
  { toAdd := (localVars.map Prod.fst).filter
      (fun key => !remoteVars.contains key)
    toUpdate := (localVars.map Prod.fst).filter
      (fun key => remoteVars.contains key)
    toRemove := (remoteVars.filter
        (fun key => !(localVars.map Prod.fst).contains key)).filter
      (fun key => !isProt key)
    protected_ := (remoteVars.filter
        (fun key => !(localVars.map Prod.fst).contains key)).filter
      (fun key => isProt key) }

/-- Remote mutation calls that `Syncer.applyChanges` issues through the
platform: a removal of a key, or a set of a key to the local value looked
up in the local mapping (`none` models the absent-key case, which the
apply loop never produces because the keys it visits come from the local
mapping itself). -/
inductive MutationCall where
  | removeVar (key : String)
  | setVar (key : String) (value : Option String)
deriving DecidableEq

/-- Property access `localVars[key]` on the local snapshot object. -/
def lookupVar (localVars : List (String × String)) (key : String) :
    Option String :=
  match localVars with
  | [] => none
  | kv :: rest => if kv.1 = key then some kv.2 else lookupVar rest key

/-- Sequential execution of a list of mutation calls: each call is issued,
awaited, and paired with the boolean outcome the platform reports for it.
The platform methods catch their own errors and return a boolean (vercel.js
setRemoteVar and removeRemoteVar both end in catch branches returning
false), so every call yields an outcome and the loop always reaches the
next call; the oracle `outcome` assigns the report of the i-th issued call. -/
def runMutations (outcome : Nat → Bool) :
    Nat → List MutationCall → List (MutationCall × Bool)
  | _, [] => []
  | i, c :: cs => (c, outcome i) :: runMutations outcome (i + 1) cs

/-- Shallow embedding of `Syncer.applyChanges` (syncer.js lines 240-252):
first a loop over `toRemove` issuing `removeRemoteVar`, then a loop over
the concatenation of `toAdd` and `toUpdate` issuing `setRemoteVar` with the
value from the local mapping.  The result is the ordered trace of issued
calls with their reported outcomes. -/
def applyChanges (outcome : Nat → Bool) (changes : ChangeSet)
    (localVars : List (String × String)) : List (MutationCall × Bool) :=
  let removeCalls := runMutations outcome 0
    (changes.toRemove.map MutationCall.removeVar)
  let setCalls := runMutations outcome removeCalls.length
    ((changes.toAdd ++ changes.toUpdate).map
      (fun key => MutationCall.setVar key (lookupVar localVars key)))
  removeCalls ++ setCalls

/-- Shallow embedding of `VercelPlatform.removeRemoteVar` (vercel.js lines
92-102): the CLI invocation either succeeds or raises; the catch branch
turns the raise into a logged `false`, so the method always returns a
boolean and never propagates an error. -/
def removeRemoteVar (rmResult : Except String Unit) : Bool :=
  match rmResult with
  | Except.ok _ => true
  | Except.error _ => false

/-- Shallow embedding of `VercelPlatform.setRemoteVar` (vercel.js lines
64-84): a best-effort removal whose outcome is ignored (inner try with an
empty catch), then the add; the outer catch turns an add failure into a
logged `false`, so the method always returns a boolean and never
propagates an error. -/
def setRemoteVar (rmResult addResult : Except String Unit) : Bool :=
  match rmResult, addResult with
  | _, Except.ok _ => true
  | _, Except.error _ => false

/-- Splitting a character sequence at newline characters, the semantics of
the JavaScript `output.split` at the newline separator: every newline ends
a line, and the text after the last newline is a final (possibly empty)
line. -/
def splitLines : List Char → List (List Char)
  | [] => [[]]
  | c :: rest =>
      match splitLines rest with
      | [] => [[]]
      | line :: lines =>
          if c = '\n' then [] :: line :: lines else (c :: line) :: lines

/-- Whitespace trimming at both ends of a character sequence, the
semantics of the JavaScript `trim` call on a line. -/
def trimChars (cs : List Char) : List Char :=
  ((cs.dropWhile Char.isWhitespace).reverse.dropWhile Char.isWhitespace).reverse

/-- Parsing of one `vc env ls` output applied by
`VercelPlatform.listRemoteVars` (vercel.js lines 31-50) on success: split
the output into lines, drop lines that are blank after trimming, and for
each remaining line take the first whitespace-separated column of the
trimmed line, skipping header lines (starting with `name` or `---`) and
columns containing `=`; collected into a `Set`, modelled as a list with
first-occurrence insertion order. -/
def envVarsFromOutput (output : String) : List String :=
  ((splitLines output.toList).filter
      (fun line => !(trimChars line).isEmpty)).foldl
    (fun envVars line =>
      let trimmed := trimChars line
      if !trimmed.isEmpty && !(List.isPrefixOf "name".toList trimmed)
          && !(List.isPrefixOf "---".toList trimmed) then
        let firstCol := trimmed.takeWhile (fun c => !c.isWhitespace)
        if !firstCol.isEmpty && !(firstCol.contains '=') then
          let name := String.mk firstCol
          if envVars.contains name then envVars else envVars ++ [name]
        else envVars
      else envVars)
    []

/-- Shallow embedding of `VercelPlatform.listRemoteVars` (vercel.js lines
31-55).  The CLI invocation result is `execResult`: on success the output
is parsed; on failure the catch branch logs the error and returns the
empty set, so the caller never observes the failure. -/
def listRemoteVars (execResult : Except String String) : List String :=
  match execResult with
  | Except.ok output => envVarsFromOutput output
  | Except.error _ => []

/-- Parsing of the answer string in `Prompts.confirm` (prompts.js lines
18-24): the empty answer yields the default, any other answer yields
whether its lowercasing starts with `y`.  `confirmChanges` calls it with
the default `false`. -/
def parseConfirmAnswer (answer : String) (defaultValue : Bool) : Bool :=
  if answer == "" then defaultValue else answer.toLower.startsWith "y"

/-- Result of the confirmation step: whether to proceed, and whether the
interactive question was actually put to the user. -/
structure ConfirmOutcome where
  proceed : Bool
  asked : Bool
deriving DecidableEq

/-- Shallow embedding of `Prompts.confirmChanges` (prompts.js lines
26-57): after printing the summary it counts `toAdd`, `toUpdate` and
`toRemove` entries (the protected list does not count); when the total is
zero it returns false without asking, otherwise it asks and parses the
answer with default `false`. -/
def confirmChanges (summary : ChangeSet) (answer : String) : ConfirmOutcome :=
  let total := summary.toAdd.length + summary.toUpdate.length
    + summary.toRemove.length
  if total == 0 then { proceed := false, asked := false }
  else { proceed := parseConfirmAnswer answer false, asked := true }

/-- Shallow embedding of the remote stage of `Syncer.push` (syncer.js
lines 79-94), starting after the local file has been parsed, filtered and
validated: list the remote variables (`execResult` is the CLI listing
outcome), calculate the changes, then either cancel when confirmation is
required and not granted (`none`, no mutation issued) or apply the changes
and return the computed change set with the mutation trace. -/
def pushSync (isProt : String → Bool) (filteredVars : List (String × String))
    (execResult : Except String String) (skipConfirmation : Bool)
    (answer : String) (outcome : Nat → Bool) :
    Option (ChangeSet × List (MutationCall × Bool)) :=
  let remoteVars := listRemoteVars execResult
  let changes := calculateChanges isProt filteredVars remoteVars
  if !skipConfirmation && !(confirmChanges changes answer).proceed then none
  else some (changes, applyChanges outcome changes filteredVars)

/-! Helper lemmas. -/

lemma globMatch_star (ps ns : List Char) :
    globMatch ('*' :: ps) ns
      = ns.tails.any (fun suffix => globMatch ps suffix) := by
  simp [globMatch]

lemma globMatch_ne_nil {p : Char} (ps : List Char) (hp : p ≠ '*') :
    globMatch (p :: ps) [] = false := by
  simp [globMatch, hp]

lemma globMatch_ne_cons {p : Char} (ps : List Char) (hp : p ≠ '*')
    (c : Char) (ns : List Char) :
    globMatch (p :: ps) (c :: ns)
      = if p = c then globMatch ps ns else false := by
  simp [globMatch, hp]

lemma globSpec_star_cons {ps ns : List Char} (c : Char)
    (h : GlobSpec ('*' :: ps) ns) : GlobSpec ('*' :: ps) (c :: ns) := by
  cases h with
  | lit hne _ => exact absurd rfl hne
  | star w hw => exact GlobSpec.star (c :: w) hw

lemma globMatch_sound : ∀ (ps ns : List Char),
    globMatch ps ns = true → GlobSpec ps ns := by
  intro ps
  induction ps with
  | nil =>
      intro ns h
      have hns : ns = [] := by simpa [globMatch, List.isEmpty_iff] using h
      subst hns
      exact GlobSpec.nil
  | cons p ps ih =>
      intro ns h
      by_cases hp : p = '*'
      · subst hp
        rw [globMatch_star, List.any_eq_true] at h
        obtain ⟨suffix, hmem, hsuf⟩ := h
        obtain ⟨w, rfl⟩ := (List.mem_tails _ _).1 hmem
        exact GlobSpec.star w (ih suffix hsuf)
      · cases ns with
        | nil =>
            rw [globMatch_ne_nil _ hp] at h
            exact absurd h (by simp)
        | cons c ns =>
            rw [globMatch_ne_cons _ hp] at h
            by_cases hc : p = c
            · rw [if_pos hc] at h
              subst hc
              exact GlobSpec.lit hp (ih ns h)
            · rw [if_neg hc] at h
              exact absurd h (by simp)

lemma globMatch_complete : ∀ {ps ns : List Char},
    GlobSpec ps ns → globMatch ps ns = true := by
  intro ps ns h
  induction h with
  | nil => rfl
  | lit hne _ ih =>
      rw [globMatch_ne_cons _ hne, if_pos rfl]
      exact ih
  | star w _ ih =>
      rw [globMatch_star, List.any_eq_true]
      exact ⟨_, (List.mem_tails _ _).2 (List.suffix_append w _), ih⟩

lemma globSpec_no_star_eq : ∀ {ps ns : List Char},
    GlobSpec ps ns → '*' ∉ ps → ps = ns := by
  intro ps ns h
  induction h with
  | nil => intro _; rfl
  | lit hne _ ih =>
      intro hs
      rw [ih (fun hm => hs (List.mem_cons_of_mem _ hm))]
  | star w _ ih =>
      intro hs
      exact absurd (List.mem_cons_self _ _) hs

lemma globSpec_refl_of_no_star : ∀ (ps : List Char),
    '*' ∉ ps → GlobSpec ps ps := by
  intro ps
  induction ps with
  | nil => intro _; exact GlobSpec.nil
  | cons c ps ih =>
      intro hs
      exact GlobSpec.lit (fun hc => hs (hc ▸ List.mem_cons_self c ps))
        (ih (fun hm => hs (List.mem_cons_of_mem _ hm)))

lemma contains_star_iff {l : List Char} :
    l.contains '*' = true ↔ '*' ∈ l := by
  simp [List.contains]

lemma mem_toAdd_iff {isProt : String → Bool} {L : List (String × String)}
    {R : List String} {k : String} :
    k ∈ (calculateChanges isProt L R).toAdd
      ↔ k ∈ L.map Prod.fst ∧ k ∉ R := by
  simp [calculateChanges, List.mem_filter, List.contains]

lemma mem_toUpdate_iff {isProt : String → Bool} {L : List (String × String)}
    {R : List String} {k : String} :
    k ∈ (calculateChanges isProt L R).toUpdate
      ↔ k ∈ L.map Prod.fst ∧ k ∈ R := by
  simp [calculateChanges, List.mem_filter, List.contains]

lemma mem_toRemove_iff {isProt : String → Bool} {L : List (String × String)}
    {R : List String} {k : String} :
    k ∈ (calculateChanges isProt L R).toRemove
      ↔ (k ∈ R ∧ k ∉ L.map Prod.fst) ∧ isProt k = false := by
  simp [calculateChanges, List.mem_filter, List.contains, and_assoc]
  tauto

lemma mem_protected_iff {isProt : String → Bool} {L : List (String × String)}
    {R : List String} {k : String} :
    k ∈ (calculateChanges isProt L R).protected_
      ↔ (k ∈ R ∧ k ∉ L.map Prod.fst) ∧ isProt k = true := by
  simp [calculateChanges, List.mem_filter, List.contains, and_assoc]
  tauto

lemma remoteOnly_card {L : List (String × String)} {R : List String}
    (hR : R.Nodup) :
    (R.filter (fun key => !(L.map Prod.fst).contains key)).length
      = (R.toFinset \ (L.map Prod.fst).toFinset).card := by
  rw [← List.toFinset_card_of_nodup (hR.filter _)]
  congr 1
  rw [List.toFinset_filter, Finset.sdiff_eq_filter]
  apply Finset.filter_congr
  intro x _
  simp [List.contains]

lemma globSafeChar_spec {c : Char} (h : globSafeChar c = true) :
    c ≠ '(' ∧ c ≠ ')' ∧ c ≠ '.' ∧ c ≠ '*' ∧ regexMetaChar c = false := by
  simp only [globSafeChar, Bool.not_eq_true', Bool.or_eq_false_iff,
    beq_eq_false_iff_ne, ne_eq] at h
  tauto

lemma globSafePattern_chars {pattern : String}
    (hp : globSafePattern pattern = true) :
    ∀ c ∈ pattern.toList, c = '*' ∨ globSafeChar c = true := by
  intro c hc
  have h := List.all_eq_true.1 hp c hc
  rcases (Bool.or_eq_true _ _) ▸ h with h1 | h2
  · exact Or.inl (eq_of_beq h1)
  · exact Or.inr h2

lemma lineTerminatorFree_chars {name : String}
    (hn : lineTerminatorFree name = true) :
    ∀ c ∈ name.toList, dotMatches c = true :=
  fun c hc => List.all_eq_true.1 hn c hc

lemma compilePattern_safe : ∀ (ps : List Char),
    (∀ c ∈ ps, c = '*' ∨ globSafeChar c = true) →
    compilePattern ps 0
      = Except.ok (ps.map
          (fun c => if c = '*' then RegexPiece.dotStar
            else RegexPiece.lit c)) := by
  intro ps
  induction ps with
  | nil => intro _; rfl
  | cons c cs ih =>
      intro h
      have hcs := fun x hx => h x (List.mem_cons_of_mem _ hx)
      rcases h c (List.mem_cons_self _ _) with hstar | hsafe
      · subst hstar
        simp [compilePattern, ih hcs]
      · obtain ⟨h1, h2, h3, h4, h5⟩ := globSafeChar_spec hsafe
        simp [compilePattern, h1, h2, h3, h4, h5, ih hcs]

lemma regexAccepts_glob : ∀ (ps ns : List Char),
    (∀ c ∈ ps, c = '*' ∨ globSafeChar c = true) →
    (∀ c ∈ ns, dotMatches c = true) →
    regexAccepts (ps.map
        (fun c => if c = '*' then RegexPiece.dotStar else RegexPiece.lit c))
        ns
      = globMatch ps ns := by
  intro ps
  induction ps with
  | nil => intro ns _ _; rfl
  | cons c cs ih =>
      intro ns hp hn
      have hcs := fun x hx => hp x (List.mem_cons_of_mem _ hx)
      by_cases hstar : c = '*'
      · subst hstar
        rw [List.map_cons, if_pos rfl, globMatch_star]
        simp only [regexAccepts]
        have htake : ∀ k, (ns.take k).all dotMatches = true := by
          intro k
          rw [List.all_eq_true]
          intro x hx
          exact hn x (List.take_subset _ _ hx)
        apply Bool.eq_iff_iff.mpr
        rw [List.any_eq_true, List.any_eq_true]
        constructor
        · rintro ⟨k, hk, hkk⟩
          rw [htake k, Bool.true_and,
            ih (ns.drop k) hcs
              (fun x hx => hn x (List.drop_subset _ _ hx))] at hkk
          exact ⟨ns.drop k, (List.mem_tails _ _).2 (List.drop_suffix _ _),
            hkk⟩
        · rintro ⟨s, hs, hss⟩
          obtain ⟨t, rfl⟩ := (List.mem_tails _ _).1 hs
          refine ⟨t.length, ?_, ?_⟩
          · rw [List.mem_range, List.length_append]
            omega
          · rw [htake, Bool.true_and, List.drop_left,
              ih s hcs (fun x hx => hn x (List.mem_append_right _ hx))]
            exact hss
      · have hsafe : globSafeChar c = true :=
          (hp c (List.mem_cons_self _ _)).resolve_left hstar
        rw [List.map_cons, if_neg hstar]
        cases ns with
        | nil =>
            rw [globMatch_ne_nil _ hstar]
            rfl
        | cons n ns2 =>
            rw [globMatch_ne_cons _ hstar]
            simp only [regexAccepts]
            by_cases hcn : n = c
            · rw [if_pos hcn, if_pos hcn.symm]
              exact ih ns2 hcs
                (fun x hx => hn x (List.mem_cons_of_mem _ hx))
            · rw [if_neg hcn, if_neg (fun hh => hcn hh.symm)]

lemma matchesPatternJS_safe (name pattern : String)
    (hp : globSafePattern pattern = true)
    (hn : lineTerminatorFree name = true) :
    matchesPatternJS name pattern
      = Except.ok (matchesPattern name pattern) := by
  have hp2 := globSafePattern_chars hp
  have hn2 := lineTerminatorFree_chars hn
  by_cases hstar : pattern.toList.contains '*' = true
  · simp only [matchesPatternJS, matchesPattern, hstar, if_true,
      compilePattern_safe _ hp2, regexAccepts_glob _ _ hp2 hn2]
  · have hcf : pattern.toList.contains '*' = false := by
      cases hb : pattern.toList.contains '*'
      · rfl
      · exact absurd hb hstar
    rw [matchesPatternJS, matchesPattern, hcf]
    simp

lemma anyMatchJS_safe (key : String) : ∀ (ps : List String),
    (∀ p ∈ ps, globSafePattern p = true) →
    lineTerminatorFree key = true →
    anyMatchJS key ps
      = Except.ok (ps.any (fun pattern => matchesPattern key pattern)) := by
  intro ps
  induction ps with
  | nil => intro _ _; rfl
  | cons p ps ih =>
      intro hp hk
      rw [anyMatchJS,
        matchesPatternJS_safe key p (hp p (List.mem_cons_self _ _)) hk]
      cases hb : matchesPattern key p
      · simp [ih (fun x hx => hp x (List.mem_cons_of_mem _ hx)) hk, hb]
      · simp [hb]

lemma vercelSystemVars_safe :
    vercelSystemVars.all globSafePattern = true := by
  decide

lemma matchesPattern_no_star (name pattern : String)
    (h : pattern.toList.contains '*' = false) :
    matchesPattern name pattern = (name == pattern) := by
  rw [matchesPattern, h]
  simp

lemma matchesPattern_glob_equiv (name pattern : String) :
    matchesPattern name pattern = true ↔
      GlobSpec pattern.toList name.toList := by
  by_cases hc : pattern.toList.contains '*' = true
  · simp only [matchesPattern, hc, if_true]
    exact ⟨globMatch_sound _ _, globMatch_complete⟩
  · have hmem : '*' ∉ pattern.toList := by
      intro hm
      exact hc (contains_star_iff.2 hm)
    simp only [matchesPattern, hc, if_false]
    constructor
    · intro h
      have heq : name = pattern := eq_of_beq h
      subst heq
      exact globSpec_refl_of_no_star _ hmem
    · intro h
      have heq : pattern = name :=
        String.ext (globSpec_no_star_eq h hmem)
      simp [heq]

/-! Claim theorems. -/

/-- C4 counterexample: at name AXB and pattern A.B* the source regex,
^A.B.*$ after the star replacement, matches the name because its dot is
a single-character wildcard, while the claimed glob semantics, in which
every character other than a star matches only itself, rejects it; so
the claimed matcher behaviour is false on the full string domain the
claim quantifies over. -/
theorem matchesPattern_glob_cex :
    matchesPatternJS "AXB" "A.B*" = Except.ok true ∧
    ¬ GlobSpec "A.B*".toList "AXB".toList :=
  ⟨rfl, fun hg => absurd (globMatch_complete hg) (by decide)⟩

/-- C4 amended: on glob-safe patterns (no regular-expression
metacharacters) and names without line terminators — the domain the
pattern lists and variable names of this tool inhabit — the source
matcher returns the idealized matcher as a boolean; a star-free pattern
matches exactly the equal name (case-sensitive); matching agrees with
the anchored glob semantics GlobSpec, in which each star matches a
greedy run of zero or more characters and the whole pattern must match
the whole name; and the two concrete VERCEL examples hold. -/
theorem matchesPattern_glob_semantics_amended (name pattern : String)
    (hp : globSafePattern pattern = true)
    (hn : lineTerminatorFree name = true) :
    matchesPatternJS name pattern
      = Except.ok (matchesPattern name pattern) ∧
    (pattern.toList.contains '*' = false →
      matchesPatternJS name pattern = Except.ok (name == pattern)) ∧
    (matchesPatternJS name pattern = Except.ok true ↔
      GlobSpec pattern.toList name.toList) ∧
    matchesPatternJS "VERCEL_URL" "VERCEL_*" = Except.ok true ∧
    matchesPatternJS "MY_VERCEL_URL" "VERCEL_*" = Except.ok false := by
  have hb := matchesPatternJS_safe name pattern hp hn
  refine ⟨hb, ?_, ?_, rfl, rfl⟩
  · intro hstar
    rw [hb, matchesPattern_no_star name pattern hstar]
  · rw [hb]
    constructor
    · intro h
      simp only [Except.ok.injEq] at h
      exact (matchesPattern_glob_equiv name pattern).1 h
    · intro h
      rw [(matchesPattern_glob_equiv name pattern).2 h]

/-- Witness for amended C4: the agreement conjunct at a concrete
glob-safe input. -/
theorem matchesPattern_glob_semantics_amended_witness :
    matchesPatternJS "VERCEL_URL" "VERCEL_*"
      = Except.ok (matchesPattern "VERCEL_URL" "VERCEL_*") :=
  (matchesPattern_glob_semantics_amended "VERCEL_URL" "VERCEL_*"
    (by decide) (by decide)).1

/-- C8 counterexample: at pattern (* the source computes new RegExp on
the string ^(.*$ whose group is never closed, raising a SyntaxError that
neither isProtectedVar nor shouldExclude catches; so the matcher is not
an error-free total function on all pattern strings. -/
theorem matchesPattern_raises_cex :
    matchesPatternJS "X" "(*"
      = Except.error "Invalid regular expression: missing )" :=
  rfl

/-- C8 amended: for every glob-safe pattern (no regular-expression
metacharacters) and every name string, evaluation of the source matcher
terminates normally with a boolean and raises no error; the embedding is
a pure function, so evaluation is deterministic and effect-free. -/
theorem matchesPattern_total_amended (name pattern : String)
    (hp : globSafePattern pattern = true) :
    ∃ b : Bool, matchesPatternJS name pattern = Except.ok b := by
  have hp2 := globSafePattern_chars hp
  by_cases hstar : pattern.toList.contains '*' = true
  · refine ⟨regexAccepts (pattern.toList.map
      (fun c => if c = '*' then RegexPiece.dotStar else RegexPiece.lit c))
      name.toList, ?_⟩
    simp only [matchesPatternJS, hstar, if_true, compilePattern_safe _ hp2]
  · refine ⟨name == pattern, ?_⟩
    have hcf : pattern.toList.contains '*' = false := by
      cases hb : pattern.toList.contains '*'
      · rfl
      · exact absurd hb hstar
    rw [matchesPatternJS, hcf]
    simp

/-- Witness for amended C8: a boolean outcome at a concrete glob-safe
input. -/
theorem matchesPattern_total_amended_witness :
    ∃ b : Bool, matchesPatternJS "VERCEL_URL" "VERCEL_*" = Except.ok b :=
  matchesPattern_total_amended "VERCEL_URL" "VERCEL_*" (by decide)

/-- C1: the four change-set sequences are pairwise disjoint, together
they cover exactly the union of the filtered local key set and the remote
key set, and the removal candidates plus the protected skips account for
exactly the remote-only names. -/
theorem calculateChanges_partition (isProt : String → Bool)
    (localVars : List (String × String)) (remoteVars : List String)
    (hR : remoteVars.Nodup) :
    ((calculateChanges isProt localVars remoteVars).toAdd.Disjoint
        (calculateChanges isProt localVars remoteVars).toUpdate ∧
      (calculateChanges isProt localVars remoteVars).toAdd.Disjoint
        (calculateChanges isProt localVars remoteVars).toRemove ∧
      (calculateChanges isProt localVars remoteVars).toAdd.Disjoint
        (calculateChanges isProt localVars remoteVars).protected_ ∧
      (calculateChanges isProt localVars remoteVars).toUpdate.Disjoint
        (calculateChanges isProt localVars remoteVars).toRemove ∧
      (calculateChanges isProt localVars remoteVars).toUpdate.Disjoint
        (calculateChanges isProt localVars remoteVars).protected_ ∧
      (calculateChanges isProt localVars remoteVars).toRemove.Disjoint
        (calculateChanges isProt localVars remoteVars).protected_) ∧
    ((calculateChanges isProt localVars remoteVars).toAdd
        ++ (calculateChanges isProt localVars remoteVars).toUpdate
        ++ (calculateChanges isProt localVars remoteVars).toRemove
        ++ (calculateChanges isProt localVars remoteVars).protected_).toFinset
      = (localVars.map Prod.fst).toFinset ∪ remoteVars.toFinset ∧
    (calculateChanges isProt localVars remoteVars).toRemove.length
        + (calculateChanges isProt localVars remoteVars).protected_.length
      = (remoteVars.toFinset \ (localVars.map Prod.fst).toFinset).card := by
  refine ⟨⟨?_, ?_, ?_, ?_, ?_, ?_⟩, ?_, ?_⟩
  · intro a ha hb
    rw [mem_toAdd_iff] at ha
    rw [mem_toUpdate_iff] at hb
    exact ha.2 hb.2
  · intro a ha hb
    rw [mem_toAdd_iff] at ha
    rw [mem_toRemove_iff] at hb
    exact hb.1.2 ha.1
  · intro a ha hb
    rw [mem_toAdd_iff] at ha
    rw [mem_protected_iff] at hb
    exact hb.1.2 ha.1
  · intro a ha hb
    rw [mem_toUpdate_iff] at ha
    rw [mem_toRemove_iff] at hb
    exact hb.1.2 ha.1
  · intro a ha hb
    rw [mem_toUpdate_iff] at ha
    rw [mem_protected_iff] at hb
    exact hb.1.2 ha.1
  · intro a ha hb
    rw [mem_toRemove_iff] at ha
    rw [mem_protected_iff] at hb
    simp [ha.2] at hb
  · apply Finset.ext
    intro a
    simp only [List.toFinset_append, Finset.mem_union, List.mem_toFinset,
      mem_toAdd_iff, mem_toUpdate_iff, mem_toRemove_iff, mem_protected_iff]
    by_cases hp : isProt a = true
    · simp only [hp]
      tauto
    · have hpf : isProt a = false := by
        cases hb : isProt a
        · rfl
        · exact absurd hb hp
      simp only [hpf]
      tauto
  · have hpart : (remoteVars.filter
        (fun key => !(localVars.map Prod.fst).contains key)).length
        = ((remoteVars.filter
            (fun key => !(localVars.map Prod.fst).contains key)).filter
          (fun key => isProt key)).length
          + ((remoteVars.filter
              (fun key => !(localVars.map Prod.fst).contains key)).filter
            (fun key => !isProt key)).length :=
      List.length_eq_length_filter_add _
    have hcard := remoteOnly_card (L := localVars) hR
    simp only [calculateChanges]
    omega

/-- Witness for C1: the counting conjunct at a concrete input with one
shared key, one local-only key, one plain remote-only key and one
protected remote-only key. -/
theorem calculateChanges_partition_witness :
    (calculateChanges (fun key => key == "CI") [("A", "1"), ("B", "2")]
        ["B", "C", "CI"]).toRemove.length
      + (calculateChanges (fun key => key == "CI") [("A", "1"), ("B", "2")]
          ["B", "C", "CI"]).protected_.length
      = (((["B", "C", "CI"] : List String).toFinset)
          \ (([("A", "1"), ("B", "2")] :
              List (String × String)).map Prod.fst).toFinset).card :=
  (calculateChanges_partition (fun key => key == "CI")
    [("A", "1"), ("B", "2")] ["B", "C", "CI"] (by decide)).2.2

/-- C3: every name present both locally and remotely is classified as an
update, irrespective of values: the change set depends on the local
mapping only through its key list (remote values are not part of the
reconciler input at all, the remote side being a name set), and the spec
scenario with local A mapped to 1 and remote name A yields exactly
toUpdate equal to the singleton A. -/
theorem calculateChanges_update_on_presence
    (isProt : String → Bool) (L Lx : List (String × String))
    (R : List String) (k : String) :
    (k ∈ L.map Prod.fst → k ∈ R →
      k ∈ (calculateChanges isProt L R).toUpdate) ∧
    (L.map Prod.fst = Lx.map Prod.fst →
      calculateChanges isProt L R = calculateChanges isProt Lx R) ∧
    calculateChanges vercelIsProtected [("A", "1")] ["A"]
      = { toAdd := [], toUpdate := ["A"], toRemove := [],
          protected_ := [] } := by
  refine ⟨?_, ?_, by decide⟩
  · intro hk hr
    rw [mem_toUpdate_iff]
    exact ⟨hk, hr⟩
  · intro h
    simp [calculateChanges, h]

/-- Witness for C3: both hypothesis-bearing conjuncts applied at a
concrete input, including two local mappings agreeing on keys but not on
values. -/
theorem calculateChanges_update_on_presence_witness :
    "A" ∈ (calculateChanges vercelIsProtected [("A", "1")] ["A"]).toUpdate ∧
    calculateChanges vercelIsProtected [("A", "1")] ["A"]
      = calculateChanges vercelIsProtected [("A", "2")] ["A"] :=
  ⟨(calculateChanges_update_on_presence vercelIsProtected [("A", "1")]
      [("A", "2")] ["A"] "A").1 (by decide) (by decide),
    (calculateChanges_update_on_presence vercelIsProtected [("A", "1")]
      [("A", "2")] ["A"] "A").2.1 (by decide)⟩

/-- Characterization of the idealized exclusion decision: a name is
excluded exactly when the include list is non-empty and no include
pattern matches it, or some exclude pattern matches it. -/
lemma shouldExclude_characterization (cfg : FilterConfig) (name : String) :
    shouldExclude cfg name = true ↔
      ((cfg.include_ ≠ [] ∧
          ∀ p ∈ cfg.include_, matchesPattern name p = false) ∨
        (∃ p ∈ cfg.exclude, matchesPattern name p = true)) := by
  rw [shouldExclude]
  by_cases hinc : cfg.include_.length > 0
  · rw [if_pos hinc]
    by_cases hany : cfg.include_.any
        (fun pattern => matchesPattern name pattern) = true
    · obtain ⟨p0, hp0, hm0⟩ := List.any_eq_true.1 hany
      rw [hany]
      simp only [Bool.not_true, Bool.false_eq_true, if_false]
      rw [List.any_eq_true]
      constructor
      · intro h
        exact Or.inr h
      · intro h
        cases h with
        | inl h => exact absurd hm0 (by simp [h.2 p0 hp0])
        | inr h => exact h
    · have hanyf : cfg.include_.any
          (fun pattern => matchesPattern name pattern) = false := by
        cases hb : cfg.include_.any (fun pattern => matchesPattern name pattern)
        · rfl
        · exact absurd hb hany
      have hall : ∀ p ∈ cfg.include_, matchesPattern name p = false := by
        intro p hp
        cases hb : matchesPattern name p
        · rfl
        · exact absurd (List.any_eq_true.2 ⟨p, hp, hb⟩) hany
      have hne : cfg.include_ ≠ [] := by
        intro h0
        rw [h0] at hinc
        simp at hinc
      rw [hanyf]
      simp only [Bool.not_false, if_true]
      constructor
      · intro _
        exact Or.inl ⟨hne, hall⟩
      · intro _
        trivial
  · rw [if_neg hinc]
    have h0 : cfg.include_ = [] := by
      cases hi : cfg.include_ with
      | nil => rfl
      | cons x xs =>
          rw [hi] at hinc
          simp at hinc
    rw [List.any_eq_true]
    constructor
    · intro h
      exact Or.inr h
    · intro h
      cases h with
      | inl h => exact absurd h0 h.1
      | inr h => exact h

/-- C5 counterexample: with an empty include list and the single exclude
pattern A.B*, the source excludes the name AXB, because the regex dot in
the constructed expression matches the X, although no exclude pattern
matches AXB under the claimed glob matching semantics; so the claimed
biconditional is false of the program on its quantified domain. -/
theorem shouldExclude_glob_cex :
    shouldExcludeJS ⟨[], ["A.B*"]⟩ "AXB" = Except.ok true ∧
    (⟨[], ["A.B*"]⟩ : FilterConfig).include_ = [] ∧
    ∀ p ∈ (⟨[], ["A.B*"]⟩ : FilterConfig).exclude,
      ¬ GlobSpec p.toList "AXB".toList := by
  refine ⟨rfl, rfl, ?_⟩
  intro p hp
  have hpp : p = "A.B*" := by simpa using hp
  subst hpp
  exact fun hg => absurd (globMatch_complete hg) (by decide)

/-- C5 amended: for configurations whose include and exclude patterns
are all glob-safe and names without line terminators — the domain of
the configurations and names of this tool — the source exclusion
decision returns the idealized one as a boolean, and that decision is
true exactly when the include list is non-empty and no include pattern
matches, or some exclude pattern matches (include evaluated before
exclude, exclude winning for names that pass include); the three
concrete include/exclude precedence examples hold. -/
theorem shouldExclude_precedence_amended (cfg : FilterConfig)
    (name : String)
    (hinc : ∀ p ∈ cfg.include_, globSafePattern p = true)
    (hexc : ∀ p ∈ cfg.exclude, globSafePattern p = true)
    (hname : lineTerminatorFree name = true) :
    shouldExcludeJS cfg name = Except.ok (shouldExclude cfg name) ∧
    (shouldExclude cfg name = true ↔
      ((cfg.include_ ≠ [] ∧
          ∀ p ∈ cfg.include_, matchesPattern name p = false) ∨
        (∃ p ∈ cfg.exclude, matchesPattern name p = true))) ∧
    shouldExcludeJS ⟨["NEXT_PUBLIC_*"], ["NEXT_PUBLIC_SECRET"]⟩
      "NEXT_PUBLIC_SECRET" = Except.ok true ∧
    shouldExcludeJS ⟨["NEXT_PUBLIC_*"], ["NEXT_PUBLIC_SECRET"]⟩
      "NEXT_PUBLIC_URL" = Except.ok false ∧
    shouldExcludeJS ⟨["NEXT_PUBLIC_*"], ["NEXT_PUBLIC_SECRET"]⟩
      "OTHER_VAR" = Except.ok true := by
  refine ⟨?_, shouldExclude_characterization cfg name, rfl, rfl, rfl⟩
  rw [shouldExcludeJS, shouldExclude]
  by_cases hlen : cfg.include_.length > 0
  · rw [if_pos hlen, if_pos hlen,
      anyMatchJS_safe name cfg.include_ hinc hname]
    cases hb : cfg.include_.any (fun pattern => matchesPattern name pattern)
    · simp
    · simp [anyMatchJS_safe name cfg.exclude hexc hname]
  · rw [if_neg hlen, if_neg hlen]
    exact anyMatchJS_safe name cfg.exclude hexc hname

/-- Witness for amended C5: the agreement conjunct at a concrete
configuration and name from the spec scenario. -/
theorem shouldExclude_precedence_amended_witness :
    shouldExcludeJS ⟨["NEXT_PUBLIC_*"], ["NEXT_PUBLIC_SECRET"]⟩
        "NEXT_PUBLIC_URL"
      = Except.ok (shouldExclude ⟨["NEXT_PUBLIC_*"], ["NEXT_PUBLIC_SECRET"]⟩
          "NEXT_PUBLIC_URL") :=
  (shouldExclude_precedence_amended
    ⟨["NEXT_PUBLIC_*"], ["NEXT_PUBLIC_SECRET"]⟩ "NEXT_PUBLIC_URL"
    (by decide) (by decide) (by decide)).1

/-- C9: filtering is idempotent: filtering an already filtered snapshot
again with the same configuration keeps every entry and reports no
excluded names. -/
theorem filterVars_idempotent (cfg : FilterConfig)
    (envVars : List (String × String)) :
    filterVars cfg (filterVars cfg envVars).1
      = ((filterVars cfg envVars).1, ([] : List String)) := by
  induction envVars with
  | nil => rfl
  | cons kv rest ih =>
      by_cases h : shouldExclude cfg kv.1 = true
      · simp [filterVars, h, ih]
      · have hf : shouldExclude cfg kv.1 = false := by
          cases hb : shouldExclude cfg kv.1
          · rfl
          · exact absurd hb h
        simp [filterVars, hf, ih]

lemma runMutations_map_fst (outcome : Nat → Bool) :
    ∀ (i : Nat) (cs : List MutationCall),
      (runMutations outcome i cs).map Prod.fst = cs := by
  intro i cs
  induction cs generalizing i with
  | nil => rfl
  | cons c cs ih => simp [runMutations, ih]

lemma applyChanges_calls (outcome : Nat → Bool) (changes : ChangeSet)
    (localVars : List (String × String)) :
    (applyChanges outcome changes localVars).map Prod.fst
      = changes.toRemove.map MutationCall.removeVar
        ++ changes.toAdd.map
          (fun key => MutationCall.setVar key (lookupVar localVars key))
        ++ changes.toUpdate.map
          (fun key => MutationCall.setVar key (lookupVar localVars key)) := by
  simp only [applyChanges]
  rw [List.map_append, runMutations_map_fst, runMutations_map_fst,
    List.map_append, List.append_assoc]

/-- C6: applying a change set issues all removals first, in change-set
order, then all additions, then all updates, each in change-set order; in
particular no add or update call is issued before every removal has been
issued, since the removal calls form a prefix of the trace. -/
theorem applyChanges_order (outcome : Nat → Bool) (changes : ChangeSet)
    (localVars : List (String × String)) :
    (applyChanges outcome changes localVars).map Prod.fst
      = changes.toRemove.map MutationCall.removeVar
        ++ changes.toAdd.map
          (fun key => MutationCall.setVar key (lookupVar localVars key))
        ++ changes.toUpdate.map
          (fun key => MutationCall.setVar key (lookupVar localVars key)) :=
  applyChanges_calls outcome changes localVars

/-- C7: a failure reported for one mutation does not stop the loop: for
every assignment of per-call outcomes, a mutation call is still issued
for every name of the change set (the platform methods catch their own
errors and report a boolean, so the loop always continues). -/
theorem applyChanges_failure_tolerant (outcome : Nat → Bool)
    (changes : ChangeSet) (localVars : List (String × String))
    (key : String) :
    (key ∈ changes.toRemove →
      MutationCall.removeVar key
        ∈ (applyChanges outcome changes localVars).map Prod.fst) ∧
    ((key ∈ changes.toAdd ∨ key ∈ changes.toUpdate) →
      MutationCall.setVar key (lookupVar localVars key)
        ∈ (applyChanges outcome changes localVars).map Prod.fst) := by
  rw [applyChanges_calls]
  constructor
  · intro hk
    simp only [List.mem_append, List.mem_map]
    exact Or.inl (Or.inl ⟨key, hk, rfl⟩)
  · intro hk
    simp only [List.mem_append, List.mem_map]
    cases hk with
    | inl h => exact Or.inl (Or.inr ⟨key, h, rfl⟩)
    | inr h => exact Or.inr ⟨key, h, rfl⟩

/-- Witness for C7: with an oracle that fails every call, the removal of
A and the update of C are still both issued. -/
theorem applyChanges_failure_tolerant_witness :
    MutationCall.removeVar "A"
        ∈ (applyChanges (fun _ => false) ⟨["B"], ["C"], ["A"], []⟩
            [("B", "1"), ("C", "2")]).map Prod.fst ∧
    MutationCall.setVar "C" (lookupVar [("B", "1"), ("C", "2")] "C")
        ∈ (applyChanges (fun _ => false) ⟨["B"], ["C"], ["A"], []⟩
            [("B", "1"), ("C", "2")]).map Prod.fst :=
  ⟨(applyChanges_failure_tolerant (fun _ => false) ⟨["B"], ["C"], ["A"], []⟩
      [("B", "1"), ("C", "2")] "A").1 (by decide),
    (applyChanges_failure_tolerant (fun _ => false) ⟨["B"], ["C"], ["A"], []⟩
      [("B", "1"), ("C", "2")] "C").2 (Or.inr (by decide))⟩

/-- C2 counterexample: an execution in which the remote listing fails
outright, yet the push pipeline still computes a change set (a diff
against the empty remote, classifying the local variable A as an
addition) and, with confirmation skipped, issues a set mutation.  The
claim says the operation aborts with no diff computed and no mutation
issued; the code instead catches the failure inside listRemoteVars and
returns the empty set. -/
theorem push_failed_listing_cex :
    listRemoteVars (Except.error "command failed") = [] ∧
    pushSync vercelIsProtected [("A", "1")] (Except.error "command failed")
        true "" (fun _ => true)
      = some ({ toAdd := ["A"], toUpdate := [], toRemove := [],
                protected_ := [] },
          [(MutationCall.setVar "A" (some "1"), true)]) :=
  ⟨rfl, rfl⟩

/-- C2 amended: when listing the remote keys fails, the failure is caught
inside listRemoteVars, which logs it and returns the empty set; the push
operation is not aborted and behaves exactly as if the remote were empty,
so the diff is still computed (everything local becomes an addition and
nothing is removed) and mutations are still issued.  The status and diff
operations share the same listRemoteVars and the same reconciler. -/
theorem push_failed_listing_continues (isProt : String → Bool)
    (filteredVars : List (String × String)) (msg : String)
    (skipConfirmation : Bool) (answer : String) (outcome : Nat → Bool) :
    listRemoteVars (Except.error msg) = [] ∧
    pushSync isProt filteredVars (Except.error msg) skipConfirmation
        answer outcome
      = pushSync isProt filteredVars (Except.ok "") skipConfirmation
          answer outcome :=
  ⟨rfl, rfl⟩

/-- C10: for a change set whose toAdd, toUpdate and toRemove are all
empty, even with a non-empty protected list, the confirmation step
returns false without asking the user, and a push without the
skip-confirmation flag is cancelled, issuing no remote mutation. -/
theorem confirmChanges_empty_cancels (summary : ChangeSet)
    (answer : String) (isProt : String → Bool)
    (filteredVars : List (String × String))
    (execResult : Except String String) (outcome : Nat → Bool) :
    (summary.toAdd = [] → summary.toUpdate = [] → summary.toRemove = [] →
      confirmChanges summary answer
        = { proceed := false, asked := false }) ∧
    ((calculateChanges isProt filteredVars
          (listRemoteVars execResult)).toAdd = [] →
      (calculateChanges isProt filteredVars
          (listRemoteVars execResult)).toUpdate = [] →
      (calculateChanges isProt filteredVars
          (listRemoteVars execResult)).toRemove = [] →
      pushSync isProt filteredVars execResult false answer outcome
        = none) := by
  constructor
  · intro h1 h2 h3
    simp [confirmChanges, h1, h2, h3]
  · intro h1 h2 h3
    have hc : confirmChanges
        (calculateChanges isProt filteredVars (listRemoteVars execResult))
        answer = { proceed := false, asked := false } := by
      simp [confirmChanges, h1, h2, h3]
    simp [pushSync, hc]

/-- Witness for C10: an empty filtered local snapshot against a remote
holding only the protected variable CI: the change set has a non-empty
protected list but nothing to add, update or remove, the confirmation
step answers false without asking, and the push is cancelled. -/
theorem confirmChanges_empty_cancels_witness :
    confirmChanges { toAdd := [], toUpdate := [], toRemove := [],
                     protected_ := ["CI"] } "y"
      = { proceed := false, asked := false } ∧
    pushSync vercelIsProtected [] (Except.ok "CI encrypted development")
        false "y" (fun _ => true) = none :=
  ⟨(confirmChanges_empty_cancels ⟨[], [], [], ["CI"]⟩ "y" vercelIsProtected
      [] (Except.ok "CI encrypted development") (fun _ => true)).1
      rfl rfl rfl,
    (confirmChanges_empty_cancels ⟨[], [], [], ["CI"]⟩ "y" vercelIsProtected
      [] (Except.ok "CI encrypted development") (fun _ => true)).2
      (by decide) (by decide) (by decide)⟩

end SecretSync
